import Mathlib

/-!
Verification development for the HeatSafe comfort-scoring and routing core
(`src/EDA/compute_edge_comfort.py`).

Reals are embedded as rationals `ℚ`.  A raster statistic that is `NaN`
(`np.nan`, the missing-data sentinel of the pipeline) is embedded as
`none : Option ℚ`; arithmetic on columns propagates `none` exactly the way
IEEE `NaN` propagates through pandas/numpy arithmetic, and the reductions
`np.nanmin` / `np.nanmax` ignore `none` entries just as they ignore `NaN`.
-/

namespace HeatSafe

/-- Minimum of a list of rationals, `none` on the empty list.  This is the
reduction `np.nanmin` performs once the `NaN` entries have been dropped. -/
def listMin : List ℚ → Option ℚ
  | [] => none
  | x :: xs =>
    match listMin xs with
    | none => some x
    | some m => some (min x m)

/-- Maximum of a list of rationals, `none` on the empty list. -/
def listMax : List ℚ → Option ℚ
  | [] => none
  | x :: xs =>
    match listMax xs with
    | none => some x
    | some m => some (max x m)

/-- Embedding of `np.nanmin s`: the minimum over the non-missing subset of the
series (`none` when every entry is missing). -/
def nanmin (s : List (Option ℚ)) : Option ℚ := listMin (s.filterMap id)

/-- Embedding of `np.nanmax s`: the maximum over the non-missing subset. -/
def nanmax (s : List (Option ℚ)) : Option ℚ := listMax (s.filterMap id)

/-- Shallow embedding of `min_max` from `src/EDA/compute_edge_comfort.py`:

```python
def min_max(series):
    s = series.copy()
    s_min, s_max = np.nanmin(s), np.nanmax(s)
    if s_max - s_min < 1e-6:
        return np.zeros_like(s)
    return (s - s_min) / (s_max - s_min)
```

`np.zeros_like(s)` yields `0` at EVERY position, missing entries included;
in the other branch the element-wise arithmetic propagates missing entries.
When every entry is missing, `np.nanmin` itself returns `NaN`, the
comparison `NaN < 1e-6` is false, and the division returns `NaN` everywhere,
hence the final branch. -/
def min_max (s : List (Option ℚ)) : List (Option ℚ) :=
  match nanmin s, nanmax s with
  | some mn, some mx =>
    if mx - mn < 1 / 1000000 then s.map (fun _ => some 0)
    else s.map (fun v => v.map (fun x => (x - mn) / (mx - mn)))
  | _, _ => s.map (fun _ => none)

/-- Weight `w_L = 0.50` on (inverted) normalized land-surface temperature. -/
def w_L : ℚ := 1 / 2

/-- Weight `w_N = 0.30` on normalized vegetation (NDVI). -/
def w_N : ℚ := 3 / 10

/-- Weight `w_A = 0.20` on (inverted) normalized pollution (AOD). -/
def w_A : ℚ := 1 / 5

/-- The comfort formula of the source,
`comfort = w_L*(1 - LST_n) + w_N*(NDVI_n) + w_A*(1 - AOD_n)`. -/
def score (wL wN wA lst ndvi aod : ℚ) : ℚ :=
  wL * (1 - lst) + wN * ndvi + wA * (1 - aod)

/-- Row-wise comfort with pandas `NaN` propagation: a missing value in any of
the three normalized inputs makes the combined comfort missing. -/
def comfortOf (lst ndvi aod : Option ℚ) : Option ℚ :=
  match lst, ndvi, aod with
  | some l, some n, some a => some (score w_L w_N w_A l n a)
  | _, _, _ => none

/-- The `edges['comfort']` column: the comfort formula applied element-wise to
the three normalized columns. -/
def comfortCol (lst ndvi aod : List (Option ℚ)) : List (Option ℚ) :=
  (lst.zip (ndvi.zip aod)).map (fun p => comfortOf p.1 p.2.1 p.2.2)

/-- The `edges['cost']` column: `cost = 1.0 - comfort`, with `NaN` propagation. -/
def costCol (comfort : List (Option ℚ)) : List (Option ℚ) :=
  comfort.map (Option.map (fun c => 1 - c))


/-- Attribute dictionary of one edge of the `networkx` multigraph `G`:
`length` (meters, read by `.get('length', 1.0)`, hence optional), the derived
`comfort` and `cost` attributes written by the loop of step 5 (absent or `NaN`
are both embedded as `none`), and the remaining attributes, untouched by the
core, as a key-value list. -/
structure EdgeData where
  length : Option ℚ
  comfort : Option ℚ
  cost : Option ℚ
  extra : List (String × ℚ)
deriving DecidableEq

/-- One edge of the multigraph: endpoints `u`, `v` (osmnx node ids, integers),
the disambiguating `key` of parallel edges, and its attribute dictionary. -/
structure Edge where
  u : Int
  v : Int
  key : Nat
  data : EdgeData
deriving DecidableEq

/-- The walking multigraph `G`: node ids plus the edge list. -/
structure Graph where
  nodes : List Int
  edges : List Edge
deriving DecidableEq

/-- One row of the `edges` GeoDataFrame as consumed by the write loop: the
`u`, `v`, `key` identifier columns (`none` when `int(...)` coercion fails) and
the `comfort` and `cost` columns (`none` embeds `NaN`). -/
structure Row where
  u : Option Int
  v : Option Int
  key : Option Nat
  comfort : Option ℚ
  cost : Option ℚ
deriving DecidableEq

/-- Update performed on a matched edge's attribute dictionary by one loop
iteration of step 5 of the source:

```python
G[u][v][key]['comfort'] = float(row['comfort']) if not np.isnan(row['comfort']) else 0.5
length = G[u][v][key].get('length', 1.0)
G[u][v][key]['cost'] = float(row['cost'])*(length/1000.0)
```

so `comfort` is defaulted to 0.5 only when the row's comfort is `NaN`, while
the written `cost` is `NaN` whenever the row's cost is `NaN` (the
multiplication propagates it), and `length` defaults to 1.0 when the edge has
no length attribute. -/
def updateEdgeData (r : Row) (d : EdgeData) : EdgeData :=
  { d with
    comfort := some (r.comfort.getD (1 / 2))
    cost := r.cost.map (fun c => c * (d.length.getD 1 / 1000)) }

/-- Proposition: row `r` carries exactly the identity of edge `e`, i.e. the
coercions `int(row['u'])`, `int(row['v'])`, `int(row['key'])` all succeed and
name this edge. -/
def rowMatches (r : Row) (e : Edge) : Prop :=
  r.u = some e.u ∧ r.v = some e.v ∧ r.key = some e.key

instance (r : Row) (e : Edge) : Decidable (rowMatches r e) :=
  inferInstanceAs (Decidable (r.u = some e.u ∧ r.v = some e.v ∧ r.key = some e.key))

/-- Action of one row of the table on one edge of the graph: an edge is
updated exactly when the row's coerced `(u, v, key)` identity names it (a
coercion failure, `none`, matches no edge — the raised exception is caught
and the row skipped; an identity absent from the graph fails the
`key in G[u][v]` test or raises a `KeyError`, also skipping the row). -/
def applyRowE (r : Row) (e : Edge) : Edge :=
  if rowMatches r e then { e with data := updateEdgeData r e.data } else e

/-- One iteration of the write loop of step 5, acting on the whole edge set:
only the edge named by the row (if any) is touched. -/
def writeRow (G : Graph) (r : Row) : Graph :=
  { G with edges := G.edges.map (applyRowE r) }

/-- The write loop of step 5: iterate `writeRow` over all rows of the table. -/
def applyCost (G : Graph) (rows : List Row) : Graph :=
  rows.foldl writeRow G

/-- Lookup `G[u][v][key]` in the edge list, `none` when the identity is not in
the network. -/
def findEdgeE (G : Graph) (u v : Int) (k : Nat) : Option Edge :=
  G.edges.find? (fun e => decide (e.u = u ∧ e.v = v ∧ e.key = k))

/-- Attribute dictionary of `G[u][v][key]`, `none` when absent. -/
def findEdge (G : Graph) (u v : Int) (k : Nat) : Option EdgeData :=
  (findEdgeE G u v k).map Edge.data

/-- Action of the whole batch of rows on one edge. -/
def processEdge (rows : List Row) (e : Edge) : Edge :=
  rows.foldl (fun a r => applyRowE r a) e

/-- Cost used by the shortest-path search for one hop from `a` to `b`:
`networkx`'s Dijkstra with `weight='cost'` on a multigraph takes, between two
adjacent nodes, the minimum of the `cost` attributes over all parallel edges
(an edge lacking the attribute counts as 1) — each parallel edge is
considered by its own key and cost and the cheapest wins; they are never
collapsed into one edge before the search.  `none` when `a` has no edge to
`b`. -/
def stepCost (G : Graph) (a b : Int) : Option ℚ :=
  listMin ((G.edges.filter (fun e => decide (e.u = a ∧ e.v = b))).map
    (fun e => e.data.cost.getD 1))

/-- Successor nodes of `a` (with multiplicity; duplicates are harmless). -/
def successors (G : Graph) (a : Int) : List Int :=
  (G.edges.filter (fun e => decide (e.u = a))).map (fun e => e.v)

/-- All simple paths (no repeated nodes) from `s` to `t` that avoid `visited`,
given enough fuel: the search space over which the weighted shortest-path
search optimizes. -/
def pathsFrom (G : Graph) : Nat → Int → Int → List Int → List (List Int)
  | 0, _, _, _ => []
  | fuel + 1, s, t, visited =>
    if s = t then [[t]]
    else
      ((successors G s).filter (fun n => decide (n ∉ visited))).flatMap
        (fun n => (pathsFrom G fuel n t (s :: visited)).map (fun p => s :: p))

/-- Total cost of a node sequence: the sum of the hop costs, `none` when some
consecutive pair is not connected by an edge. -/
def pathCost (G : Graph) : List Int → Option ℚ
  | [] => none
  | [_] => some 0
  | a :: b :: rest =>
    match stepCost G a b, pathCost G (b :: rest) with
    | some c, some d => some (c + d)
    | _, _ => none

/-- Candidate simple paths from `s` to `t` (fuel bounded by the node count,
enough for any simple path). -/
def candidatePaths (G : Graph) (s t : Int) : List (List Int) :=
  pathsFrom G (G.nodes.length + 1) s t []

/-- Minimum total cost over the candidate paths, `none` when there is none. -/
def minDist (G : Graph) (s t : Int) : Option ℚ :=
  listMin ((candidatePaths G s t).filterMap (pathCost G))

/-- Model of `nx.shortest_path(G, orig_node, dest_node, weight='cost')`: a
path of minimum total cost over the candidate paths (the edge costs written
by the Cost Mapper are nonnegative, where a Dijkstra search returns exactly a
minimum-total-cost path); `none` models the `NetworkXNoPath` exception raised
when no path exists, which propagates to the caller. -/
def shortest_path (G : Graph) (s t : Int) : Option (List Int) :=
  match minDist G s t with
  | none => none
  | some d => (candidatePaths G s t).find? (fun p => decide (pathCost G p = some d))

/-- Embedding of `find_coolest_route` of the source: resolve the two
coordinate pairs to nearest nodes — the resolver `nearest` models
`ox.distance.nearest_nodes`, an external collaborator, and takes
longitude/latitude in that order, as called by the source — then run the
cost-weighted shortest-path search between the resolved nodes. -/
def find_coolest_route (G : Graph) (nearest : ℚ → ℚ → Int)
    (origLat origLon destLat destLon : ℚ) : Option (List Int) :=
  shortest_path G (nearest origLon origLat) (nearest destLon destLat)

/-- Proposition: the graph has at least one edge from `a` to `b`. -/
def HasEdge (G : Graph) (a b : Int) : Prop :=
  ∃ e ∈ G.edges, e.u = a ∧ e.v = b

/-- Proposition: `p` is the node sequence of a directed walk in `G` from `s`
to `t` (the one-node sequence when `s = t`). -/
inductive IsPath (G : Graph) : Int → Int → List Int → Prop
  | single (a : Int) : IsPath G a a [a]
  | cons (a b t : Int) (rest : List Int) (h : HasEdge G a b)
      (hp : IsPath G b t (b :: rest)) : IsPath G a t (a :: b :: rest)

/-- Reachability: some path from `s` to `t` exists. -/
def Reachable (G : Graph) (s t : Int) : Prop :=
  ∃ p, IsPath G s t p

/-- Concrete example edge 1 → 2 with key 0 and a 100 m length. -/
def eEx : Edge :=
  { u := 1, v := 2, key := 0
    data := { length := some 100, comfort := none, cost := none, extra := [] } }

/-- Concrete two-node network holding only `eEx`. -/
def Gex : Graph := { nodes := [1, 2], edges := [eEx] }

/-- Row of a segment whose temperature input is missing: the pipeline's
comfort and cost columns for normalized inputs `(NaN, 1, 1)`. -/
def rowMissingTemp : Row :=
  { u := some 1, v := some 2, key := some 0
    comfort := comfortOf none (some 1) (some 1)
    cost := (comfortOf none (some 1) (some 1)).map (fun c => 1 - c) }

/-- Row whose `u` identifier fails integer coercion. -/
def rowBadCoerce : Row :=
  { u := none, v := some 2, key := some 0, comfort := some (3/4), cost := some (1/4) }

/-- Well-formed row for the edge of `Gex` with comfort 3/4. -/
def rowGood : Row :=
  { u := some 1, v := some 2, key := some 0
    comfort := some (3/4), cost := some (1 - 3/4) }

/-- Row naming an identity (7, 8, 0) absent from `Gex`. -/
def rowOther : Row :=
  { u := some 7, v := some 8, key := some 0, comfort := some (1/4), cost := some (3/4) }

/-- Two-node network with no edges: node 1 is unreachable from node 0. -/
def Gdisc : Graph := { nodes := [0, 1], edges := [] }

/-- Two-node multigraph with two parallel edges 0 → 1, keys 0 and 1, routing
costs 2 and 5. -/
def Gpar : Graph :=
  { nodes := [0, 1]
    edges :=
      [{ u := 0, v := 1, key := 0
         data := { length := some 2000, comfort := none, cost := some 2, extra := [] } },
       { u := 0, v := 1, key := 1
         data := { length := some 5000, comfort := none, cost := some 5, extra := [] } }] }

end HeatSafe

namespace HeatSafe

theorem listMin_eq_none {l : List ℚ} : listMin l = none ↔ l = [] := by
  cases l with
  | nil => simp [listMin]
  | cons y ys =>
    simp only [listMin]
    cases listMin ys <;> simp

theorem listMax_eq_none {l : List ℚ} : listMax l = none ↔ l = [] := by
  cases l with
  | nil => simp [listMax]
  | cons y ys =>
    simp only [listMax]
    cases listMax ys <;> simp

theorem listMin_le_of_mem {l : List ℚ} {m x : ℚ}
    (hm : listMin l = some m) (hx : x ∈ l) : m ≤ x := by
  induction l generalizing m with
  | nil => cases hx
  | cons y ys ih =>
    simp only [listMin] at hm
    cases hys : listMin ys with
    | none =>
      rw [hys] at hm
      cases hm
      rcases List.mem_cons.mp hx with rfl | hx'
      · exact le_refl _
      · rw [listMin_eq_none.mp hys] at hx'
        cases hx'
    | some m' =>
      rw [hys] at hm
      cases hm
      rcases List.mem_cons.mp hx with rfl | hx'
      · exact min_le_left _ _
      · exact le_trans (min_le_right _ _) (ih hys hx')

theorem le_listMax_of_mem {l : List ℚ} {m x : ℚ}
    (hm : listMax l = some m) (hx : x ∈ l) : x ≤ m := by
  induction l generalizing m with
  | nil => cases hx
  | cons y ys ih =>
    simp only [listMax] at hm
    cases hys : listMax ys with
    | none =>
      rw [hys] at hm
      cases hm
      rcases List.mem_cons.mp hx with rfl | hx'
      · exact le_refl _
      · rw [listMax_eq_none.mp hys] at hx'
        cases hx'
    | some m' =>
      rw [hys] at hm
      cases hm
      rcases List.mem_cons.mp hx with rfl | hx'
      · exact le_max_left _ _
      · exact le_trans (ih hys hx') (le_max_right _ _)

theorem listMin_mem {l : List ℚ} {m : ℚ} (hm : listMin l = some m) : m ∈ l := by
  induction l generalizing m with
  | nil => cases hm
  | cons y ys ih =>
    simp only [listMin] at hm
    cases hys : listMin ys with
    | none =>
      rw [hys] at hm
      cases hm
      exact List.mem_cons_self _ _
    | some m' =>
      rw [hys] at hm
      cases hm
      rcases min_choice y m' with h | h
      · rw [h]; exact List.mem_cons_self _ _
      · rw [h]; exact List.mem_cons_of_mem _ (ih hys)

theorem listMax_mem {l : List ℚ} {m : ℚ} (hm : listMax l = some m) : m ∈ l := by
  induction l generalizing m with
  | nil => cases hm
  | cons y ys ih =>
    simp only [listMax] at hm
    cases hys : listMax ys with
    | none =>
      rw [hys] at hm
      cases hm
      exact List.mem_cons_self _ _
    | some m' =>
      rw [hys] at hm
      cases hm
      rcases max_choice y m' with h | h
      · rw [h]; exact List.mem_cons_self _ _
      · rw [h]; exact List.mem_cons_of_mem _ (ih hys)

theorem min_max_eq_of_some {s : List (Option ℚ)} {mn mx : ℚ}
    (hmn : nanmin s = some mn) (hmx : nanmax s = some mx) :
    min_max s =
      if mx - mn < 1 / 1000000 then s.map (fun _ => some 0)
      else s.map (fun v => v.map (fun x => (x - mn) / (mx - mn))) := by
  rw [min_max, hmn, hmx]

theorem nanmin_le {s : List (Option ℚ)} {mn x : ℚ}
    (hmn : nanmin s = some mn) (hx : some x ∈ s) : mn ≤ x :=
  listMin_le_of_mem hmn (List.mem_filterMap.mpr ⟨some x, hx, rfl⟩)

theorem le_nanmax {s : List (Option ℚ)} {mx x : ℚ}
    (hmx : nanmax s = some mx) (hx : some x ∈ s) : x ≤ mx :=
  le_listMax_of_mem hmx (List.mem_filterMap.mpr ⟨some x, hx, rfl⟩)

/-- C5: for all nonnegative weights summing to 1 and normalized inputs in
[0,1], the comfort score `w_L*(1-lst) + w_N*ndvi + w_A*(1-aod)` lies in [0,1]. -/
theorem score_mem_unit_interval (wL wN wA l n a : ℚ)
    (hwL : 0 ≤ wL) (hwN : 0 ≤ wN) (hwA : 0 ≤ wA) (hsum : wL + wN + wA = 1)
    (hl0 : 0 ≤ l) (hl1 : l ≤ 1) (hn0 : 0 ≤ n) (hn1 : n ≤ 1)
    (ha0 : 0 ≤ a) (ha1 : a ≤ 1) :
    0 ≤ score wL wN wA l n a ∧ score wL wN wA l n a ≤ 1 := by
  unfold score
  constructor <;> nlinarith

/-- Witness for C5 at the source's own weights and inputs (0.3, 0.5, 0.9). -/
theorem score_mem_unit_interval_witness :
    0 ≤ score (1/2) (3/10) (1/5) (3/10) (1/2) (9/10) ∧
      score (1/2) (3/10) (1/5) (3/10) (1/2) (9/10) ≤ 1 :=
  score_mem_unit_interval (1/2) (3/10) (1/5) (3/10) (1/2) (9/10)
    (by norm_num) (by norm_num) (by norm_num) (by norm_num)
    (by norm_num) (by norm_num) (by norm_num) (by norm_num)
    (by norm_num) (by norm_num)

/-- C1 counterexample: at the claim's concrete scenario (temperature means
[30, 35, 40] so normalized temperatures [0, 0.5, 1], vegetation and pollution
normalized inputs held at 0, weights (0.5, 0.3, 0.2)) the code's first comfort
score is 0.7, not the claimed 0.5: with `AOD_n = 0` the inverted pollution
term contributes `w_A*(1-0) = 0.2` to every segment, so the scores are not
"the temperature term only". -/
theorem scenario_scores_counterexample :
    min_max [some 30, some 35, some 40] = [some 0, some (1/2), some 1] ∧
    comfortCol (min_max [some 30, some 35, some 40])
        [some 0, some 0, some 0] [some 0, some 0, some 0]
      = [some (7/10), some (9/20), some (1/5)] ∧
    ((7/10 : ℚ) = 1/2 → False) := by
  norm_num [min_max, nanmin, nanmax, listMin, listMax, comfortCol, comfortOf,
    score, w_L, w_N, w_A, List.filterMap, List.zip, List.zipWith]

/-- C1 amended: three segments with raw temperature means [30, 35, 40]
normalize to [0, 0.5, 1]; with weights (0.5, 0.3, 0.2) and the vegetation and
pollution normalized inputs both held at 0, the comfort scores are exactly
[0.7, 0.45, 0.2] — the temperature term plus the constant 0.2 contribution of
the inverted pollution term `w_A*(1 - 0)`. -/
theorem scenario_scores_amended :
    min_max [some 30, some 35, some 40] = [some 0, some (1/2), some 1] ∧
    comfortCol (min_max [some 30, some 35, some 40])
        [some 0, some 0, some 0] [some 0, some 0, some 0]
      = [some (7/10), some (9/20), some (1/5)] := by
  norm_num [min_max, nanmin, nanmax, listMin, listMax, comfortCol, comfortOf,
    score, w_L, w_N, w_A, List.filterMap, List.zip, List.zipWith]

/-- C3: when the non-missing values of the series span at least `1e-6`, the
normalizer maps each non-missing value `x` to `(x - mn) / (mx - mn)`, which
lies in [0,1]; positions holding the non-missing minimum map to exactly 0 and
positions holding the non-missing maximum map to exactly 1.  When the span is
below `1e-6` every output entry is 0. -/
theorem min_max_spec (s : List (Option ℚ)) (mn mx : ℚ)
    (hmn : nanmin s = some mn) (hmx : nanmax s = some mx) :
    (1 / 1000000 ≤ mx - mn →
      (∀ (i : Nat) (x : ℚ), s[i]? = some (some x) →
        (min_max s)[i]? = some (some ((x - mn) / (mx - mn))) ∧
        0 ≤ (x - mn) / (mx - mn) ∧ (x - mn) / (mx - mn) ≤ 1) ∧
      (∀ (i : Nat), s[i]? = some (some mn) → (min_max s)[i]? = some (some 0)) ∧
      (∀ (i : Nat), s[i]? = some (some mx) → (min_max s)[i]? = some (some 1))) ∧
    (mx - mn < 1 / 1000000 → ∀ y ∈ min_max s, y = some 0) := by
  constructor
  · intro hspan
    have hpos : 0 < mx - mn := lt_of_lt_of_le (by norm_num) hspan
    have hne : mx - mn ≠ 0 := ne_of_gt hpos
    have hbranch : min_max s = s.map (fun v => v.map (fun x => (x - mn) / (mx - mn))) := by
      rw [min_max_eq_of_some hmn hmx, if_neg (not_lt.mpr hspan)]
    have key : ∀ (i : Nat) (x : ℚ), s[i]? = some (some x) →
        (min_max s)[i]? = some (some ((x - mn) / (mx - mn))) := by
      intro i x hi
      rw [hbranch, List.getElem?_map, hi]
      rfl
    refine ⟨?_, ?_, ?_⟩
    · intro i x hi
      have hxs : some x ∈ s := List.getElem?_mem hi
      have h1 : mn ≤ x := nanmin_le hmn hxs
      have h2 : x ≤ mx := le_nanmax hmx hxs
      refine ⟨key i x hi, div_nonneg (sub_nonneg.mpr h1) (le_of_lt hpos), ?_⟩
      rw [div_le_one hpos]
      exact sub_le_sub_right h2 mn
    · intro i hi
      have := key i mn hi
      rwa [sub_self, zero_div] at this
    · intro i hi
      have := key i mx hi
      rwa [div_self hne] at this
  · intro hspan y hy
    rw [min_max_eq_of_some hmn hmx, if_pos hspan] at hy
    rcases List.mem_map.mp hy with ⟨v, _, hv⟩
    exact hv.symm

/-- Witness for C3 at the series [30, 35, 40]: the minimum position maps to 0. -/
theorem min_max_spec_witness :
    (min_max [some 30, some 35, some 40])[0]? = some (some 0) :=
  ((min_max_spec [some 30, some 35, some 40] 30 40
      (by norm_num [nanmin, listMin, List.filterMap])
      (by norm_num [nanmax, listMax, List.filterMap])).1
    (by norm_num)).2.1 0 rfl

/-- C4 counterexample: on the series [5, missing] the non-missing span is 0,
the code takes the `np.zeros_like` branch, and the missing entry is coerced to
0 instead of propagating as missing. -/
theorem min_max_missing_counterexample :
    min_max [some 5, none] = [some 0, some 0] ∧
    (min_max [some 5, none])[1]? = some (some 0) := by
  have h : min_max [some 5, none] = [some 0, some 0] := by
    norm_num [min_max, nanmin, nanmax, listMin, listMax, List.filterMap]
  exact ⟨h, by rw [h]; rfl⟩

/-- C4 amended: the minimum and maximum used for rescaling are exactly the
minimum and maximum of the non-missing subset, and in the non-degenerate case
(span at least `1e-6`) missing entries propagate as missing; but in the
degenerate case (span below `1e-6`) every entry — missing entries included —
is coerced to 0 by the `np.zeros_like` branch. -/
theorem min_max_missing (s : List (Option ℚ)) (mn mx : ℚ)
    (hmn : nanmin s = some mn) (hmx : nanmax s = some mx) :
    (some mn ∈ s ∧ some mx ∈ s ∧ ∀ x, some x ∈ s → mn ≤ x ∧ x ≤ mx) ∧
    (1 / 1000000 ≤ mx - mn →
      ∀ (i : Nat), s[i]? = some none → (min_max s)[i]? = some none) ∧
    (mx - mn < 1 / 1000000 →
      ∀ (i : Nat), s[i]? = some none → (min_max s)[i]? = some (some 0)) := by
  refine ⟨⟨?_, ?_, ?_⟩, ?_, ?_⟩
  · rcases List.mem_filterMap.mp (listMin_mem hmn) with ⟨a, ha, rfl⟩
    exact ha
  · rcases List.mem_filterMap.mp (listMax_mem hmx) with ⟨a, ha, rfl⟩
    exact ha
  · intro x hx
    exact ⟨nanmin_le hmn hx, le_nanmax hmx hx⟩
  · intro hspan i hi
    rw [min_max_eq_of_some hmn hmx, if_neg (not_lt.mpr hspan), List.getElem?_map, hi]
    rfl
  · intro hspan i hi
    rw [min_max_eq_of_some hmn hmx, if_pos hspan, List.getElem?_map, hi]
    rfl

/-- Witness for C4 (amended) at the series [5, missing, 6]: the missing entry
at position 1 propagates as missing. -/
theorem min_max_missing_witness :
    (min_max [some 5, none, some 6])[1]? = some none :=
  (min_max_missing [some 5, none, some 6] 5 6
      (by norm_num [nanmin, listMin, List.filterMap])
      (by norm_num [nanmax, listMax, List.filterMap])).2.1
    (by norm_num) 1 rfl

end HeatSafe


namespace HeatSafe

theorem applyRowE_not_matched (r : Row) (e : Edge) (h : ¬ rowMatches r e) :
    applyRowE r e = e := if_neg h

theorem applyRowE_matched (r : Row) (e : Edge) (h : rowMatches r e) :
    applyRowE r e = { e with data := updateEdgeData r e.data } := if_pos h

theorem writeRow_nodes (G : Graph) (r : Row) : (writeRow G r).nodes = G.nodes := rfl

theorem writeRow_edges (G : Graph) (r : Row) :
    (writeRow G r).edges = G.edges.map (applyRowE r) := rfl

theorem writeRow_skip (G : Graph) (r : Row)
    (h : ∀ e ∈ G.edges, ¬ rowMatches r e) : writeRow G r = G := by
  cases G with
  | mk nodes edges =>
    show Graph.mk nodes (edges.map _) = Graph.mk nodes edges
    congr 1
    calc edges.map (applyRowE r)
        = edges.map id := List.map_congr_left (fun e he => applyRowE_not_matched r e (h e he))
      _ = edges := List.map_id edges

theorem applyCost_nodes (G : Graph) (rows : List Row) :
    (applyCost G rows).nodes = G.nodes := by
  induction rows generalizing G with
  | nil => rfl
  | cons r rs ih =>
    show (applyCost (writeRow G r) rs).nodes = G.nodes
    rw [ih, writeRow_nodes]

theorem applyCost_edges (G : Graph) (rows : List Row) :
    (applyCost G rows).edges = G.edges.map (processEdge rows) := by
  induction rows generalizing G with
  | nil =>
    show G.edges = G.edges.map (processEdge [])
    exact ((List.map_congr_left (fun e _ => (rfl : processEdge [] e = id e))).trans
      (List.map_id G.edges)).symm
  | cons r rs ih =>
    show (applyCost (writeRow G r) rs).edges = _
    rw [ih, writeRow_edges, List.map_map]
    exact List.map_congr_left (fun e _ => rfl)

theorem applyRowE_ident (r : Row) (e : Edge) :
    (applyRowE r e).u = e.u ∧ (applyRowE r e).v = e.v ∧ (applyRowE r e).key = e.key ∧
    (applyRowE r e).data.length = e.data.length ∧
    (applyRowE r e).data.extra = e.data.extra := by
  by_cases h : rowMatches r e
  · rw [applyRowE_matched r e h]
    exact ⟨rfl, rfl, rfl, rfl, rfl⟩
  · rw [applyRowE_not_matched r e h]
    exact ⟨rfl, rfl, rfl, rfl, rfl⟩

theorem processEdge_ident (rows : List Row) (e : Edge) :
    (processEdge rows e).u = e.u ∧ (processEdge rows e).v = e.v ∧
    (processEdge rows e).key = e.key ∧
    (processEdge rows e).data.length = e.data.length ∧
    (processEdge rows e).data.extra = e.data.extra := by
  induction rows generalizing e with
  | nil => exact ⟨rfl, rfl, rfl, rfl, rfl⟩
  | cons r rs ih =>
    rcases ih (applyRowE r e) with ⟨i1, i2, i3, i4, i5⟩
    rcases applyRowE_ident r e with ⟨j1, j2, j3, j4, j5⟩
    exact ⟨i1.trans j1, i2.trans j2, i3.trans j3, i4.trans j4, i5.trans j5⟩

theorem processEdge_not_matched (rows : List Row) (e : Edge)
    (h : ∀ r ∈ rows, ¬ rowMatches r e) : processEdge rows e = e := by
  induction rows with
  | nil => rfl
  | cons r rs ih =>
    show processEdge rs (applyRowE r e) = e
    rw [applyRowE_not_matched r e (h r (List.mem_cons_self r rs))]
    exact ih (fun r2 hr2 => h r2 (List.mem_cons_of_mem r hr2))

end HeatSafe

namespace HeatSafe

theorem findEdgeE_map (l : List Edge) (f : Edge → Edge)
    (hf : ∀ e, (f e).u = e.u ∧ (f e).v = e.v ∧ (f e).key = e.key) (u v : Int) (k : Nat) :
    (l.map f).find? (fun e => decide (e.u = u ∧ e.v = v ∧ e.key = k))
      = (l.find? (fun e => decide (e.u = u ∧ e.v = v ∧ e.key = k))).map f := by
  induction l with
  | nil => rfl
  | cons e es ih =>
    rcases hf e with ⟨h1, h2, h3⟩
    by_cases h : e.u = u ∧ e.v = v ∧ e.key = k
    · have hp : decide ((f e).u = u ∧ (f e).v = v ∧ (f e).key = k) = true := by
        rw [h1, h2, h3]
        exact decide_eq_true h
      have hp2 : decide (e.u = u ∧ e.v = v ∧ e.key = k) = true := decide_eq_true h
      rw [List.map_cons]
      simp only [List.find?_cons, hp, hp2]
      rfl
    · have hp : decide ((f e).u = u ∧ (f e).v = v ∧ (f e).key = k) = false := by
        rw [h1, h2, h3]
        exact decide_eq_false h
      have hp2 : decide (e.u = u ∧ e.v = v ∧ e.key = k) = false := decide_eq_false h
      rw [List.map_cons]
      simp only [List.find?_cons, hp, hp2, ih]

theorem findEdgeE_applyCost (G : Graph) (rows : List Row) (u v : Int) (k : Nat) :
    findEdgeE (applyCost G rows) u v k = (findEdgeE G u v k).map (processEdge rows) := by
  show ((applyCost G rows).edges.find? _) = _
  rw [applyCost_edges]
  exact findEdgeE_map G.edges (processEdge rows)
    (fun e => ⟨(processEdge_ident rows e).1, (processEdge_ident rows e).2.1,
      (processEdge_ident rows e).2.2.1⟩) u v k

theorem findEdgeE_ident (G : Graph) (u v : Int) (k : Nat) (e : Edge)
    (h : findEdgeE G u v k = some e) : e.u = u ∧ e.v = v ∧ e.key = k := by
  have h2 := List.find?_some h
  rwa [decide_eq_true_eq] at h2

theorem findEdgeE_mem_none (G : Graph) (u v : Int) (k : Nat) (e : Edge)
    (he : e ∈ G.edges) (hu : e.u = u) (hv : e.v = v) (hk : e.key = k) :
    findEdgeE G u v k ≠ none := by
  intro hn
  have h2 := List.find?_eq_none.mp hn e he
  rw [decide_eq_true_eq] at h2
  exact h2 ⟨hu, hv, hk⟩

theorem comfortOf_of_missing (lst ndvi aod : Option ℚ)
    (h : lst = none ∨ ndvi = none ∨ aod = none) : comfortOf lst ndvi aod = none := by
  cases lst <;> cases ndvi <;> cases aod <;> simp [comfortOf] <;>
    rcases h with h | h | h <;> exact Option.noConfusion h

/-- C7: a row whose identifiers fail integer coercion, or whose coerced
(u, v, key) identity does not exist in the network, is skipped — that single
write leaves the graph unchanged — and processing continues with all
remaining rows exactly as if the bad record were absent; a bad record never
aborts the batch, so every remaining well-identified segment still gets its
attributes written. -/
theorem applyCost_skip_bad_row (G : Graph) (r : Row) (rows : List Row)
    (h : r.u = none ∨ r.v = none ∨ r.key = none ∨
      (∀ (u v : Int) (k : Nat), r.u = some u → r.v = some v → r.key = some k →
        findEdgeE G u v k = none)) :
    writeRow G r = G ∧ applyCost G (r :: rows) = applyCost G rows := by
  have hnm : ∀ e ∈ G.edges, ¬ rowMatches r e := by
    intro e he hm
    rcases hm with ⟨h1, h2, h3⟩
    rcases h with h | h | h | h
    · rw [h] at h1; exact Option.noConfusion h1
    · rw [h] at h2; exact Option.noConfusion h2
    · rw [h] at h3; exact Option.noConfusion h3
    · exact findEdgeE_mem_none G e.u e.v e.key e he rfl rfl rfl (h e.u e.v e.key h1 h2 h3)
  have hw : writeRow G r = G := writeRow_skip G r hnm
  refine ⟨hw, ?_⟩
  show applyCost (writeRow G r) rows = applyCost G rows
  rw [hw]

/-- Witness for C7: a row whose `u` fails coercion is skipped on `Gex`. -/
theorem applyCost_skip_bad_row_witness :
    writeRow Gex rowBadCoerce = Gex ∧ applyCost Gex [rowBadCoerce] = applyCost Gex [] :=
  applyCost_skip_bad_row Gex rowBadCoerce [] (Or.inl rfl)

/-- C2 amended: when any of a segment's three metric inputs is missing, the
combined comfort of its row is missing (`NaN`); the write loop then stores
0.5 as the segment's `comfort` attribute — a whole-score default applied
regardless of the other observed inputs, not a per-term substitution — and
stores a missing (`NaN`) routing cost, computed as `NaN * (length/1000)`:
the stored cost is not a well-defined finite value. -/
theorem missing_input_default (G : Graph) (r : Row) (u v : Int) (k : Nat) (d : EdgeData)
    (lst ndvi aod : Option ℚ)
    (hmiss : lst = none ∨ ndvi = none ∨ aod = none)
    (hcf : r.comfort = comfortOf lst ndvi aod)
    (hcost : r.cost = (comfortOf lst ndvi aod).map (fun c => 1 - c))
    (hu : r.u = some u) (hv : r.v = some v) (hk : r.key = some k)
    (hfind : findEdge G u v k = some d) :
    comfortOf lst ndvi aod = none ∧
    ∃ d2, findEdge (applyCost G [r]) u v k = some d2 ∧
      d2.comfort = some (1 / 2) ∧ d2.cost = none := by
  have hnone := comfortOf_of_missing lst ndvi aod hmiss
  rw [hnone] at hcf hcost
  refine ⟨hnone, ?_⟩
  rcases Option.map_eq_some'.mp hfind with ⟨e0, he0, hdata⟩
  rcases findEdgeE_ident G u v k e0 he0 with ⟨hu0, hv0, hk0⟩
  have hmatch : rowMatches r e0 := ⟨by rw [hu, hu0], by rw [hv, hv0], by rw [hk, hk0]⟩
  have hstep : findEdge (applyCost G [r]) u v k
      = some (updateEdgeData r e0.data) := by
    rw [findEdge, findEdgeE_applyCost, he0]
    show some (processEdge [r] e0).data = _
    have : processEdge [r] e0 = applyRowE r e0 := rfl
    rw [this, applyRowE_matched r e0 hmatch]
  refine ⟨updateEdgeData r e0.data, hstep, ?_, ?_⟩
  · rw [updateEdgeData]
    rw [hcf]
    rfl
  · rw [updateEdgeData]
    rw [hcost]
    rfl

/-- C2 counterexample: a segment with missing temperature but vegetation and
pollution normalized inputs both 1 would, under the claimed per-term 0.5
substitution, score `0.5*(1-0.5) + 0.3*1 + 0.2*(1-1) = 0.55` with a finite
cost; the code instead produces a missing combined comfort, writes the
whole-score default 0.5 as the comfort attribute, and writes a missing
(`NaN`) cost — the segment's stored routing cost is not well-defined. -/
theorem missing_input_counterexample :
    comfortOf none (some 1) (some 1) = none ∧
    score w_L w_N w_A (1/2) 1 1 = 11/20 ∧
    ((11/20 : ℚ) = 1/2 → False) ∧
    findEdge (applyCost Gex [rowMissingTemp]) 1 2 0
      = some { length := some 100, comfort := some (1/2), cost := none, extra := [] } := by
  refine ⟨rfl, by norm_num [score, w_L, w_N, w_A], by norm_num, rfl⟩

/-- Witness for C2 (amended) on `Gex` with normalized inputs `(NaN, 1, 1)`. -/
theorem missing_input_default_witness :
    comfortOf none (some 1) (some 1) = none ∧
    ∃ d2, findEdge (applyCost Gex [rowMissingTemp]) 1 2 0 = some d2 ∧
      d2.comfort = some (1 / 2) ∧ d2.cost = none :=
  missing_input_default Gex rowMissingTemp 1 2 0
    { length := some 100, comfort := none, cost := none, extra := [] }
    none (some 1) (some 1) (Or.inl rfl) rfl rfl rfl rfl rfl rfl

end HeatSafe

namespace HeatSafe

/-- C6: for a row of the edges table — whose cost column is `1 - comfort` —
whose coerced identity `(u, v, key)` is found in the network, the cost
attribute stored by the write loop equals
`(1 - comfortScore) * (length_in_meters / 1000)`; in particular a comfort
score of 1 yields a stored cost of 0, and a comfort score of 0 yields a
stored cost equal to the segment's length in kilometers.  (The theorem lets
any batch of earlier rows run first; the frame lemmas guarantee they cannot
change the segment's identity or length.) -/
theorem cost_write_value (G : Graph) (rows : List Row) (r : Row) (u v : Int) (k : Nat)
    (cf L : ℚ) (d : EdgeData)
    (hu : r.u = some u) (hv : r.v = some v) (hk : r.key = some k)
    (hcf : r.comfort = some cf) (hcost : r.cost = some (1 - cf))
    (hfind : findEdge G u v k = some d) (hL : d.length = some L) :
    ∃ d2, findEdge (applyCost G (rows ++ [r])) u v k = some d2 ∧
      d2.comfort = some cf ∧
      d2.cost = some ((1 - cf) * (L / 1000)) ∧
      (cf = 1 → d2.cost = some 0) ∧
      (cf = 0 → d2.cost = some (L / 1000)) := by
  rcases Option.map_eq_some'.mp hfind with ⟨e0, he0, hdata⟩
  rcases findEdgeE_ident G u v k e0 he0 with ⟨hu0, hv0, hk0⟩
  have happ : applyCost G (rows ++ [r]) = writeRow (applyCost G rows) r := by
    show List.foldl writeRow G (rows ++ [r]) = _
    rw [List.foldl_append]
    rfl
  have hmid : findEdgeE (applyCost G rows) u v k = some (processEdge rows e0) := by
    rw [findEdgeE_applyCost, he0]
    rfl
  have hlen : (processEdge rows e0).data.length = some L := by
    rw [(processEdge_ident rows e0).2.2.2.1, hdata, hL]
  have hmatch : rowMatches r (processEdge rows e0) := by
    refine ⟨?_, ?_, ?_⟩
    · rw [(processEdge_ident rows e0).1, hu0, hu]
    · rw [(processEdge_ident rows e0).2.1, hv0, hv]
    · rw [(processEdge_ident rows e0).2.2.1, hk0, hk]
  have hw : findEdgeE (writeRow (applyCost G rows) r) u v k
      = (findEdgeE (applyCost G rows) u v k).map (applyRowE r) := by
    show ((applyCost G rows).edges.map (applyRowE r)).find?
        (fun e => decide (e.u = u ∧ e.v = v ∧ e.key = k))
      = ((applyCost G rows).edges.find?
        (fun e => decide (e.u = u ∧ e.v = v ∧ e.key = k))).map (applyRowE r)
    exact findEdgeE_map _ (applyRowE r)
      (fun e => ⟨(applyRowE_ident r e).1, (applyRowE_ident r e).2.1,
        (applyRowE_ident r e).2.2.1⟩) u v k
  have hfinal : findEdge (applyCost G (rows ++ [r])) u v k
      = some (updateEdgeData r (processEdge rows e0).data) := by
    rw [happ, findEdge, hw, hmid]
    show some ((applyRowE r (processEdge rows e0)).data) = _
    rw [applyRowE_matched r (processEdge rows e0) hmatch]
  refine ⟨updateEdgeData r (processEdge rows e0).data, hfinal, ?_, ?_, ?_, ?_⟩
  · rw [updateEdgeData, hcf]
    rfl
  · show (updateEdgeData r (processEdge rows e0).data).cost = _
    rw [updateEdgeData, hcost]
    show some ((1 - cf) * ((processEdge rows e0).data.length.getD 1 / 1000)) = _
    rw [hlen]
    rfl
  · intro h1
    show (updateEdgeData r (processEdge rows e0).data).cost = _
    rw [updateEdgeData, hcost, hlen, h1]
    show some ((1 - 1) * (L / 1000)) = some 0
    rw [sub_self, zero_mul]
  · intro h0
    show (updateEdgeData r (processEdge rows e0).data).cost = _
    rw [updateEdgeData, hcost, hlen, h0]
    show some ((1 - 0) * (L / 1000)) = some (L / 1000)
    rw [sub_zero, one_mul]

/-- Witness for C6: the single good row on `Gex` (comfort 3/4, length 100 m)
stores cost `(1 - 3/4) * (100/1000)`. -/
theorem cost_write_value_witness :
    ∃ d2, findEdge (applyCost Gex ([] ++ [rowGood])) 1 2 0 = some d2 ∧
      d2.comfort = some (3/4) ∧ d2.cost = some ((1 - 3/4) * ((100 : ℚ) / 1000)) := by
  obtain ⟨d2, h1, h2, h3, _, _⟩ := cost_write_value Gex [] rowGood 1 2 0 (3/4) 100
    { length := some 100, comfort := none, cost := none, extra := [] }
    rfl rfl rfl rfl rfl rfl rfl
  exact ⟨d2, h1, h2, h3⟩

/-- C10: frame property of the write loop — the node set and the edge count
of the graph are unchanged, every edge keeps its identity `(u, v, key)`, its
`length` and all its other attributes (only `comfort` and `cost` can change),
and an edge whose identity is matched by no processed row is not modified at
all. -/
theorem applyCost_frame (G : Graph) (rows : List Row) :
    (applyCost G rows).nodes = G.nodes ∧
    (applyCost G rows).edges.length = G.edges.length ∧
    ∀ (i : Nat) (e e2 : Edge), G.edges[i]? = some e →
      (applyCost G rows).edges[i]? = some e2 →
      (e2.u = e.u ∧ e2.v = e.v ∧ e2.key = e.key ∧
       e2.data.length = e.data.length ∧ e2.data.extra = e.data.extra) ∧
      ((∀ r ∈ rows, ¬ rowMatches r e) → e2 = e) := by
  refine ⟨applyCost_nodes G rows, ?_, ?_⟩
  · rw [applyCost_edges, List.length_map]
  · intro i e e2 h1 h2
    rw [applyCost_edges, List.getElem?_map, h1] at h2
    have h3 : processEdge rows e = e2 := Option.some_inj.mp h2
    subst h3
    exact ⟨processEdge_ident rows e, fun h => processEdge_not_matched rows e h⟩

/-- Witness for C10: the row naming the absent identity (7, 8, 0) leaves the
unique edge of `Gex` entirely unchanged. -/
theorem applyCost_frame_witness :
    (applyCost Gex [rowOther]).nodes = Gex.nodes ∧ processEdge [rowOther] eEx = eEx := by
  obtain ⟨hn, _, hpt⟩ := applyCost_frame Gex [rowOther]
  have h2 : (applyCost Gex [rowOther]).edges[0]? = some (processEdge [rowOther] eEx) := by
    rw [applyCost_edges, List.getElem?_map]
    rfl
  refine ⟨hn, (hpt 0 eEx (processEdge [rowOther] eEx) rfl h2).2 ?_⟩
  intro r hr
  rw [List.mem_singleton.mp hr]
  rintro ⟨hru, _, _⟩
  exact absurd hru (by decide)

end HeatSafe

namespace HeatSafe

theorem isPath_shape {G : Graph} {s t : Int} {p : List Int} (h : IsPath G s t p) :
    ∃ rest, p = s :: rest := by
  cases h with
  | single a => exact ⟨[], rfl⟩
  | cons a b t2 rest h2 hp => exact ⟨b :: rest, rfl⟩

theorem isPath_src_edge {G : Graph} {s t : Int} {p : List Int}
    (h : IsPath G s t p) (hne : s ≠ t) : ∃ e ∈ G.edges, e.u = s := by
  cases h with
  | single a => exact absurd rfl hne
  | cons a b t2 rest he hp =>
    rcases he with ⟨e, he2, hu, _⟩
    exact ⟨e, he2, hu⟩

theorem pathsFrom_sound (G : Graph) (fuel : Nat) :
    ∀ (s t : Int) (visited p : List Int),
      p ∈ pathsFrom G fuel s t visited → IsPath G s t p := by
  induction fuel with
  | zero =>
    intro s t visited p hp
    cases hp
  | succ fuel ih =>
    intro s t visited p hp
    rw [pathsFrom] at hp
    by_cases hst : s = t
    · subst hst
      rw [if_pos rfl] at hp
      have hp2 : p = [s] := List.mem_singleton.mp hp
      subst hp2
      exact IsPath.single s
    · rw [if_neg hst] at hp
      rcases List.mem_flatMap.mp hp with ⟨n, hn, hpn⟩
      rcases List.mem_map.mp hpn with ⟨q, hq, rfl⟩
      have hq2 := ih n t (s :: visited) q hq
      rcases isPath_shape hq2 with ⟨rest, rfl⟩
      have hn2 : n ∈ successors G s := (List.mem_filter.mp hn).1
      rcases List.mem_map.mp hn2 with ⟨e, hef, hev⟩
      have he2 := List.mem_filter.mp hef
      have heu : e.u = s := by
        have := he2.2
        rwa [decide_eq_true_eq] at this
      exact IsPath.cons s n t rest ⟨e, he2.1, heu, hev⟩ hq2

theorem candidatePaths_sound (G : Graph) (s t : Int) (p : List Int)
    (hp : p ∈ candidatePaths G s t) : IsPath G s t p :=
  pathsFrom_sound G (G.nodes.length + 1) s t [] p hp

/-- C8: for every network and origin/destination coordinates whose resolved
destination node is unreachable from the resolved origin node, the route
search returns no node sequence — the `none` models the `NetworkXNoPath`
exception `nx.shortest_path` raises, which propagates out of
`find_coolest_route` to the caller rather than producing a path. -/
theorem route_unreachable (G : Graph) (nearest : ℚ → ℚ → Int)
    (olat olon dlat dlon : ℚ) (s t : Int)
    (hs : nearest olon olat = s) (ht : nearest dlon dlat = t)
    (hreach : ¬ Reachable G s t) :
    find_coolest_route G nearest olat olon dlat dlon = none ∧
    shortest_path G s t = none := by
  have hempty : candidatePaths G s t = [] := by
    cases hc : candidatePaths G s t with
    | nil => rfl
    | cons p ps =>
      exact absurd ⟨p, candidatePaths_sound G s t p (hc ▸ List.mem_cons_self p ps)⟩ hreach
  have hmin : minDist G s t = none := by
    rw [minDist, hempty]
    rfl
  have hsp : shortest_path G s t = none := by
    rw [shortest_path, hmin]
  refine ⟨?_, hsp⟩
  rw [find_coolest_route, hs, ht]
  exact hsp

theorem not_reachable_Gdisc : ¬ Reachable Gdisc 0 1 := by
  rintro ⟨p, hp⟩
  rcases isPath_src_edge hp (by decide) with ⟨e, he, _⟩
  cases he

/-- Witness for C8 on the edge-free two-node network `Gdisc`, with a resolver
sending the origin coordinates to node 0 and the destination to node 1. -/
theorem route_unreachable_witness :
    find_coolest_route Gdisc (fun _ lat => if lat = 0 then 0 else 1) 0 0 1 1 = none ∧
    shortest_path Gdisc 0 1 = none :=
  route_unreachable Gdisc (fun _ lat => if lat = 0 then 0 else 1) 0 0 1 1 0 1
    (by norm_num) (by norm_num) not_reachable_Gdisc

/-- C9: the hop cost the route search uses between two adjacent nodes is the
minimum over all parallel edges, each considered at its own cost — for every
edge from `a` to `b` the hop cost exists and is at most that edge's cost, so
parallel edges are never collapsed before comparison and the cheapest wins;
in particular, on the multigraph with two parallel segments 0 → 1 of costs 2
and 5, the route 0 → 1 is returned with total cost 2, using the cost-2
segment. -/
theorem route_parallel_edges :
    (∀ (G : Graph) (a b : Int), ∀ e ∈ G.edges, e.u = a → e.v = b →
      ∃ c, stepCost G a b = some c ∧ c ≤ e.data.cost.getD 1) ∧
    stepCost Gpar 0 1 = some 2 ∧
    minDist Gpar 0 1 = some 2 ∧
    shortest_path Gpar 0 1 = some [0, 1] := by
  refine ⟨?_, ?_, ?_, ?_⟩
  · intro G a b e he hu hv
    have hmem : e.data.cost.getD 1 ∈
        (G.edges.filter (fun e2 => decide (e2.u = a ∧ e2.v = b))).map
          (fun e2 => e2.data.cost.getD 1) :=
      List.mem_map.mpr ⟨e, List.mem_filter.mpr ⟨he, by simp [hu, hv]⟩, rfl⟩
    cases hmin : stepCost G a b with
    | none =>
      have hmin2 : listMin ((G.edges.filter (fun e2 => decide (e2.u = a ∧ e2.v = b))).map
          (fun e2 => e2.data.cost.getD 1)) = none := hmin
      rw [listMin_eq_none] at hmin2
      rw [hmin2] at hmem
      cases hmem
    | some m =>
      have hmin2 : listMin ((G.edges.filter (fun e2 => decide (e2.u = a ∧ e2.v = b))).map
          (fun e2 => e2.data.cost.getD 1)) = some m := hmin
      exact ⟨m, rfl, listMin_le_of_mem hmin2 hmem⟩
  · norm_num [stepCost, listMin, Gpar, List.filter]
  · norm_num [minDist, candidatePaths, pathsFrom, successors, Gpar, List.filter,
      List.filterMap, pathCost, stepCost, listMin]
  · norm_num [shortest_path, minDist, candidatePaths, pathsFrom, successors, Gpar,
      List.filter, List.filterMap, pathCost, stepCost, listMin, List.find?]

/-- Witness for C9: applied to the cost-5 parallel edge of `Gpar`, the hop
cost 0 → 1 exists and is at most 5. -/
theorem route_parallel_edges_witness :
    ∃ c, stepCost Gpar 0 1 = some c ∧ c ≤ (some (5 : ℚ)).getD 1 :=
  route_parallel_edges.1 Gpar 0 1
    { u := 0, v := 1, key := 1
      data := { length := some 5000, comfort := none, cost := some 5, extra := [] } }
    (List.mem_cons_of_mem _ (List.mem_cons_self _ _)) rfl rfl

end HeatSafe
